import Mathlib

/-!
Verification of the devtools-backend repository: shopping calculator
(parsers, cart calculation, monetary rounding), dictionary service and
word-concatenation service.  Monetary values are modelled as exact decimal
rationals: the code rounds `Decimal(str(x))`, i.e. the exact decimal value
of the float's shortest repr, so for inputs given as decimal literals the
rational model coincides with the code's arithmetic.
-/

namespace Devtools

/-- Python ASCII whitespace, as stripped by `str.strip()`. -/
def isPySpace (c : Char) : Bool :=
  c = ' ' || c = '\t' || c = '\n' || c = '\r' || c = '\x0b' || c = '\x0c'

/-- Python `str.strip()` on a character list: drop whitespace from both ends. -/
def pyStripList (cs : List Char) : List Char :=
  ((cs.dropWhile isPySpace).reverse.dropWhile isPySpace).reverse

/-- Python `str.strip()` on a string. -/
def pyStrip (s : String) : String := ⟨pyStripList s.data⟩

/-- Source `ShoppingCalculatorService._round_to_decimal_places`: the integer
nearest to `q` with ties rounded away from zero (`decimal.ROUND_HALF_UP`). -/
def roundHalfUp (q : ℚ) : ℤ :=
  if 0 ≤ q then ⌊q + 1/2⌋ else -⌊-q + 1/2⌋

/-- Source `_round_to_decimal_places(value)`: quantize to 2 decimal places with
`ROUND_HALF_UP`, on the exact decimal value of the input. -/
def round_to_decimal_places (q : ℚ) : ℚ :=
  (roundHalfUp (q * 100) : ℚ) / 100

/-- The request consumed by `ShoppingCalculatorService.calculate_total`
(`ShoppingTotalRequest`): a cost table, an item list and a tax rate.
The Python dict is an association list with distinct keys. -/
structure ShoppingTotalRequest where
  costs : List (String × ℚ)
  items : List String
  tax : ℚ
deriving DecidableEq

/-- Embedding of `ShoppingTotalResponse`. -/
structure ShoppingTotalResponse where
  subtotal : ℚ
  tax_amount : ℚ
  total : ℚ
  items_found : List String
  items_not_found : List String
  items_count : ℕ
deriving DecidableEq

/-- Python `dict.get`: first (unique) binding of the key. -/
def dictGet (costs : List (String × ℚ)) (k : String) : Option ℚ :=
  (costs.find? (fun p => p.1 == k)).map (·.2)

/-- The loop body of `_calculate_subtotal`: fold over the items,
accumulating the running subtotal and the found / not-found lists. -/
def subtotalLoop (costs : List (String × ℚ)) :
    (ℚ × List String × List String) → List String → ℚ × List String × List String
  | acc, [] => acc
  | (s, found, notFound), item :: rest =>
    let stripped := pyStrip item
    if stripped = "" then
      subtotalLoop costs (s, found, notFound) rest
    else
      match dictGet costs stripped with
      | some c => subtotalLoop costs (s + c, found ++ [stripped], notFound) rest
      | none => subtotalLoop costs (s, found, notFound ++ [stripped]) rest

/-- Source `ShoppingCalculatorService._calculate_subtotal`. -/
def calculate_subtotal (items : List String) (costs : List (String × ℚ)) :
    ℚ × List String × List String :=
  subtotalLoop costs (0, [], []) items

/-- Source `ShoppingCalculatorService._calculate_tax_and_total`. -/
def calculate_tax_and_total (subtotal tax_rate : ℚ) : ℚ × ℚ :=
  let tax_amount := subtotal * tax_rate
  (tax_amount, subtotal + tax_amount)

/-- Source `ShoppingCalculatorService.calculate_total`. -/
def calculate_total (request : ShoppingTotalRequest) : ShoppingTotalResponse :=
  let st := calculate_subtotal request.items request.costs
  let tt := calculate_tax_and_total st.1 request.tax
  { subtotal := round_to_decimal_places st.1
    tax_amount := round_to_decimal_places tt.1
    total := round_to_decimal_places tt.2
    items_found := st.2.1
    items_not_found := st.2.2
    items_count := st.2.1.length + st.2.2.length }

/-- The strings an item list is reduced to before lookup: each item is
stripped and blank items are dropped. -/
def procList (items : List String) : List String :=
  (items.map pyStrip).filter (fun s => s != "")

/-- The processed items present in the cost table, in input order. -/
def foundOf (costs : List (String × ℚ)) (items : List String) : List String :=
  (procList items).filter (fun i => (dictGet costs i).isSome)

/-- The processed items absent from the cost table, in input order. -/
def notFoundOf (costs : List (String × ℚ)) (items : List String) : List String :=
  (procList items).filter (fun i => !(dictGet costs i).isSome)

/-- The raw subtotal: the sum of the costs of the found items. -/
def sumFound (costs : List (String × ℚ)) (items : List String) : ℚ :=
  ((procList items).filterMap (dictGet costs)).sum

/-- A Python float as produced by `float(str)`: a finite (exact decimal)
value, an infinity, or NaN. -/
inductive PyFloat where
  | finite (q : ℚ)
  | inf
  | neginf
  | nan
deriving DecidableEq

/-- The comparison `x < 0` on a Python float (NaN compares false). -/
def PyFloat.ltZero : PyFloat → Bool
  | finite q => decide (q < 0)
  | inf => false
  | neginf => true
  | nan => false

/-- Python unary minus on a float. -/
def PyFloat.neg : PyFloat → PyFloat
  | finite q => finite (-q)
  | inf => neginf
  | neginf => inf
  | nan => nan

/-- Numeric value of a run of decimal digits. -/
def natOfDigits (cs : List Char) : ℕ :=
  cs.foldl (fun acc c => 10 * acc + (c.toNat - '0'.toNat)) 0

/-- Exponent suffix of a float literal: an optional sign and at least one
digit, consuming the rest of the input. -/
def expPart (mant : ℚ) (r : List Char) : Option ℚ :=
  let sr : ℤ × List Char :=
    match r with
    | '+' :: t => (1, t)
    | '-' :: t => (-1, t)
    | _ => (1, r)
  let ds := sr.2.takeWhile Char.isDigit
  let rest := sr.2.dropWhile Char.isDigit
  if ds = [] ∨ rest ≠ [] then none
  else some (mant * (10 : ℚ) ^ (sr.1 * (natOfDigits ds : ℤ)))

/-- Unsigned decimal float literal: digits, an optional fraction, an
optional exponent; at least one digit in the mantissa. -/
def parseUnsigned (cs : List Char) : Option ℚ :=
  let ip := cs.takeWhile Char.isDigit
  let rest1 := cs.dropWhile Char.isDigit
  let fr : List Char × List Char :=
    match rest1 with
    | '.' :: r => (r.takeWhile Char.isDigit, r.dropWhile Char.isDigit)
    | _ => ([], rest1)
  if ip = [] ∧ fr.1 = [] then none
  else
    let mant : ℚ := (natOfDigits ip : ℚ) + (natOfDigits fr.1 : ℚ) / (10 : ℚ) ^ fr.1.length
    match fr.2 with
    | [] => some mant
    | 'e' :: r => expPart mant r
    | 'E' :: r => expPart mant r
    | _ => none

/-- Body of a float literal after the optional sign: `inf`, `infinity` and
`nan` (case-insensitive) or an unsigned decimal literal. -/
def pyFloatCore (cs : List Char) : Option PyFloat :=
  let lower := cs.map Char.toLower
  if lower = "inf".data ∨ lower = "infinity".data then some .inf
  else if lower = "nan".data then some .nan
  else (parseUnsigned cs).map .finite

/-- Model of Python's `float(str)` (an external collaborator of the
parser): strip, optional sign, then `inf`/`nan` or a decimal literal. -/
def pyFloatOfString (s : String) : Option PyFloat :=
  match pyStripList s.data with
  | '+' :: rest => pyFloatCore rest
  | '-' :: rest => (pyFloatCore rest).map PyFloat.neg
  | cs => pyFloatCore cs

/-- The failures raised by the shopping input parsers
(`ValueError` messages in `_parse_costs` / `_parse_items`). -/
inductive ParseErr where
  | emptyCosts
  | costNotNumber (key : String)
  | costNegative (key : String)
  | invalidPrice (item : String) (price : String)
  | noPairs
  | emptyItems
  | noItems
deriving DecidableEq

/-- A JSON value as decoded by `json.loads` (an external collaborator):
numbers carry their float value; Python decodes JSON booleans to `bool`,
a subclass of `int`, so they pass the numeric check. -/
inductive JVal where
  | num (v : PyFloat)
  | bool (b : Bool)
  | str (s : String)
  | null
  | arr
  | obj
deriving DecidableEq

/-- Check `isinstance(value, (int, float))` on a decoded JSON value
(`bool` is a subclass of `int` in Python). -/
def JVal.isNumber : JVal → Bool
  | num _ => true
  | bool _ => true
  | _ => false

/-- Conversion `float(value)` on a decoded JSON value that passed the numeric check. -/
def JVal.toFloat : JVal → PyFloat
  | num v => v
  | bool b => .finite (if b then 1 else 0)
  | _ => .nan

/-- The validation loop of the JSON branch of `_parse_costs`: every value
must be numeric and not negative; the first offending key raises. -/
def jsonValidate : List (String × JVal) → Except ParseErr (List (String × PyFloat))
  | [] => .ok []
  | (k, v) :: rest =>
    if !v.isNumber then .error (.costNotNumber k)
    else if v.toFloat.ltZero then .error (.costNegative k)
    else (jsonValidate rest).map (fun d => (k, v.toFloat) :: d)

/-- Split a character list at every character satisfying `p`
(Python `re.split` on a character class / `str.split(c)`). -/
def splitOnPred (p : Char → Bool) : List Char → List (List Char)
  | [] => [[]]
  | c :: rest =>
    if p c then [] :: splitOnPred p rest
    else
      match splitOnPred p rest with
      | [] => [[c]]
      | l :: ls => (c :: l) :: ls

/-- The `re.split` over commas, semicolons and newlines in `_parse_costs`. -/
def splitDelims (cs : List Char) : List (List Char) :=
  splitOnPred (fun c => c == ',' || c == ';' || c == '\n') cs

/-- Search for the leftmost colon that has a non-empty remainder after it;
characters before that colon (which may themselves be colons) form the
prefix.  This is the backtracking behaviour of the lazy group in the
pattern matching a name, a colon and a price. -/
def findSplit : List Char → Option (List Char × List Char)
  | [] => none
  | c :: rest =>
    if c == ':' && !rest.isEmpty then some ([], rest)
    else (findSplit rest).map (fun pq => (c :: pq.1, pq.2))

/-- The regex match of `_parse_costs` on a stripped line: at least one
character, then the leftmost colon followed by at least one character. -/
def colonSplit : List Char → Option (List Char × List Char)
  | [] => none
  | c :: rest => (findSplit rest).map (fun pq => (c :: pq.1, pq.2))

/-- Python dict insertion `d[k] = v`: replace in place or append
(last write wins). -/
def insertLW : List (String × PyFloat) → String → PyFloat → List (String × PyFloat)
  | [], k, v => [(k, v)]
  | (k2, v2) :: rest, k, v =>
    if k2 = k then (k2, v) :: rest else (k2, v2) :: insertLW rest k v

/-- Lookup in the parsed cost dict. -/
def lookupLW (d : List (String × PyFloat)) (k : String) : Option PyFloat :=
  (d.find? (fun p => p.1 == k)).map (·.2)

/-- The loop body of the delimited branch of `_parse_costs` on one
candidate line. -/
def processLine (acc : List (String × PyFloat)) (rawLine : List Char) :
    Except ParseErr (List (String × PyFloat)) :=
  let line := pyStripList rawLine
  if line = [] then .ok acc
  else
    match colonSplit line with
    | none => .ok acc
    | some (namePart, pricePart) =>
      let item : String := ⟨pyStripList namePart⟩
      let priceStr : String := ⟨pyStripList pricePart⟩
      if item = "" then .ok acc
      else
        match pyFloatOfString priceStr with
        | none => .error (.invalidPrice item priceStr)
        | some price =>
          if price.ltZero then .error (.costNegative item)
          else .ok (insertLW acc item price)

/-- Fold of `processLine` over the candidate lines. -/
def processLines (acc : List (String × PyFloat)) :
    List (List Char) → Except ParseErr (List (String × PyFloat))
  | [] => .ok acc
  | l :: ls =>
    match processLine acc l with
    | .error e => .error e
    | .ok acc2 => processLines acc2 ls

/-- Steps 2 and 3 of `_parse_costs`: the delimited `name: price` format,
failing when no valid pair was found. -/
def parseDelimited (cs : List Char) : Except ParseErr (List (String × PyFloat)) :=
  match processLines [] (splitDelims cs) with
  | .error e => .error e
  | .ok d => if d = [] then .error .noPairs else .ok d

/-- Source `ShoppingTotalSimpleRequest._parse_costs`, parameterized by the JSON
decoder `jdec` (`json.loads`, an external collaborator; `none` models
`json.JSONDecodeError`).  A `ValueError` raised by the value checks inside
the `try` block is not a `JSONDecodeError`, so it propagates rather than
falling through. -/
def parse_costs (jdec : String → Option (List (String × JVal)))
    (costs_input : String) : Except ParseErr (List (String × PyFloat)) :=
  let stripped := pyStrip costs_input
  if stripped = "" then .error .emptyCosts
  else if stripped.data.head? = some '\x7b' then
    match jdec stripped with
    | some kvs => jsonValidate kvs
    | none => parseDelimited stripped.data
  else parseDelimited stripped.data

/-- Python `str.split()` with no argument: split on runs of whitespace,
dropping empty tokens. -/
def wsSplitAux (acc : List Char) : List Char → List (List Char)
  | [] => if acc = [] then [] else [acc.reverse]
  | c :: rest =>
    if isPySpace c then
      if acc = [] then wsSplitAux [] rest else acc.reverse :: wsSplitAux [] rest
    else wsSplitAux (c :: acc) rest

/-- Python `str.split()` on a character list. -/
def wsSplit (cs : List Char) : List (List Char) := wsSplitAux [] cs

/-- Source `ShoppingTotalSimpleRequest._parse_items`. -/
def parse_items (items_input : String) : Except ParseErr (List String) :=
  let t := pyStrip items_input
  if t = "" then .error .emptyItems
  else
    let items : List String :=
      if ',' ∈ t.data then
        ((splitOnPred (· == ',') t.data).map (fun l => pyStrip ⟨l⟩)).filter (fun x => x != "")
      else if '\n' ∈ t.data then
        ((splitOnPred (· == '\n') t.data).map (fun l => pyStrip ⟨l⟩)).filter (fun x => x != "")
      else if ' ' ∈ t.data ∧ 1 < (wsSplit t.data).length then
        ((wsSplit t.data).map (fun l => pyStrip ⟨l⟩)).filter (fun x => x != "")
      else [t]
    let items2 := items.filter (fun x => x != "")
    if items2 = [] then .error .noItems else .ok items2

/-- The token sequence described by the (amended) item-list delimiter
rules, as a total function: comma split if a comma occurs, else newline
split if a newline occurs, else whitespace split if a space character
occurs and the whitespace split has more than one token, else the whole
trimmed string; tokens trimmed and blanks dropped. -/
def itemsTokens (s : String) : List String :=
  let t := pyStrip s
  let toks : List String :=
    if ',' ∈ t.data then (splitOnPred (· == ',') t.data).map (fun l => pyStrip ⟨l⟩)
    else if '\n' ∈ t.data then (splitOnPred (· == '\n') t.data).map (fun l => pyStrip ⟨l⟩)
    else if ' ' ∈ t.data ∧ 1 < (wsSplit t.data).length then
      (wsSplit t.data).map (fun l => pyStrip ⟨l⟩)
    else [t]
  toks.filter (fun x => x != "")

/-- A stored dictionary entry: word (lowercased) and definition.
Modelled from the spec: the entry shape of the persistent store
(`DictionaryEntry` in the absent `db_models` module); the created-at
timestamp is omitted as no claim mentions it. -/
structure DictionaryEntry where
  word : String
  defn : String
deriving DecidableEq

/-- Modelled from the spec: the persistent store behind the absent
repository module, a key-value lookup keyed by lowercased word with at
most one entry per word. -/
structure Store where
  entries : List DictionaryEntry
deriving DecidableEq

/-- Modelled from the spec: `repository.find_by_word`, the key-value
lookup keyed by lowercased word. -/
def find_by_word (st : Store) (w : String) : Option DictionaryEntry :=
  st.entries.find? (fun e => e.word == w)

/-- Python `str.lower()` on the character list (ASCII case folding, as
`Char.toLower`). -/
def strToLower (s : String) : String := ⟨s.data.map Char.toLower⟩

/-- The dictionary service failures (`ValueError`,
`DictionaryWordAlreadyExistsError`, `DictionaryWordNotFoundError`). -/
inductive DictErr where
  | wordEmpty
  | definitionEmpty
  | alreadyExists (word : String)
  | notFound (word : String)
deriving DecidableEq

/-- Source `DictionaryService.add_word` with the store passed explicitly:
validate, normalize (strip; word lowercased), reject duplicates
(case-insensitive), persist the new entry. -/
def add_word (st : Store) (word definition : String) :
    Except DictErr (DictionaryEntry × Store) :=
  if pyStrip word = "" then .error .wordEmpty
  else if pyStrip definition = "" then .error .definitionEmpty
  else
    let normalized_word := strToLower (pyStrip word)
    let normalized_definition := pyStrip definition
    match find_by_word st normalized_word with
    | some _ => .error (.alreadyExists normalized_word)
    | none =>
      let entry : DictionaryEntry := ⟨normalized_word, normalized_definition⟩
      .ok (entry, ⟨st.entries ++ [entry]⟩)

/-- Source `DictionaryService.get_word`: validate, normalize, look up. -/
def get_word (st : Store) (word : String) : Except DictErr DictionaryEntry :=
  if pyStrip word = "" then .error .wordEmpty
  else
    let normalized_word := strToLower (pyStrip word)
    match find_by_word st normalized_word with
    | none => .error (.notFound normalized_word)
    | some entry => .ok entry

/-- Embedding of `WordConcatResponse`. -/
structure WordConcatResponse where
  result : String
  words : List String
  characters_extracted : ℕ
  characters_skipped : ℕ
deriving DecidableEq

/-- Source `WordConcatenationService._is_valid_index`: the word must have more
than `index` characters. -/
def is_valid_index (word : String) (index : ℕ) : Bool :=
  index < word.length

/-- The loop of `_extract_characters_by_index`, carrying the current
index: extract `word[index]` when valid, else count a skip. -/
def extractLoop (index : ℕ) : List String → List Char × ℕ
  | [] => ([], 0)
  | word :: rest =>
    let r := extractLoop (index + 1) rest
    if is_valid_index word index then (word.data.getD index ' ' :: r.1, r.2)
    else (r.1, r.2 + 1)

/-- Source `WordConcatenationService._extract_characters_by_index`. -/
def extract_characters_by_index (words : List String) : List Char × ℕ :=
  extractLoop 0 words

/-- Source `WordConcatenationService.concatenate_words`. -/
def concatenate_words (words : List String) : WordConcatResponse :=
  let r := extract_characters_by_index words
  { result := ⟨r.1⟩
    words := words
    characters_extracted := r.1.length
    characters_skipped := r.2 }

end Devtools

namespace Devtools

/-- Evaluation rule for `round_to_decimal_places` on non-negative inputs:
half-up rounding is the floor of `q * 100 + 1/2`. -/
lemma round_to_decimal_places_eval (q : ℚ) (n : ℤ) (h0 : 0 ≤ q)
    (h : ⌊q * 100 + 1/2⌋ = n) : round_to_decimal_places q = (n : ℚ) / 100 := by
  rw [round_to_decimal_places, roundHalfUp,
    if_pos (mul_nonneg h0 (by norm_num)), h]

lemma procList_cons (i : String) (rest : List String) :
    procList (i :: rest)
      = if pyStrip i = "" then procList rest else pyStrip i :: procList rest := by
  by_cases hs : pyStrip i = "" <;> simp [procList, List.filter_cons, hs]

lemma subtotalLoop_cons (costs : List (String × ℚ)) (s : ℚ)
    (f nf : List String) (i : String) (rest : List String) :
    subtotalLoop costs (s, f, nf) (i :: rest)
      = if pyStrip i = "" then subtotalLoop costs (s, f, nf) rest
        else
          match dictGet costs (pyStrip i) with
          | some c => subtotalLoop costs (s + c, f ++ [pyStrip i], nf) rest
          | none => subtotalLoop costs (s, f, nf ++ [pyStrip i]) rest := rfl

lemma sumFound_cons (costs : List (String × ℚ)) (i : String) (rest : List String) :
    sumFound costs (i :: rest)
      = if pyStrip i = "" then sumFound costs rest
        else
          match dictGet costs (pyStrip i) with
          | some c => c + sumFound costs rest
          | none => sumFound costs rest := by
  by_cases hs : pyStrip i = ""
  · simp [sumFound, procList_cons, hs]
  · cases hdg : dictGet costs (pyStrip i) <;>
      simp [sumFound, procList_cons, hs, List.filterMap_cons, hdg]

lemma foundOf_cons (costs : List (String × ℚ)) (i : String) (rest : List String) :
    foundOf costs (i :: rest)
      = if pyStrip i = "" then foundOf costs rest
        else
          match dictGet costs (pyStrip i) with
          | some _ => pyStrip i :: foundOf costs rest
          | none => foundOf costs rest := by
  by_cases hs : pyStrip i = ""
  · simp [foundOf, procList_cons, hs]
  · cases hdg : dictGet costs (pyStrip i) <;>
      simp [foundOf, procList_cons, hs, List.filter_cons, hdg]

lemma notFoundOf_cons (costs : List (String × ℚ)) (i : String) (rest : List String) :
    notFoundOf costs (i :: rest)
      = if pyStrip i = "" then notFoundOf costs rest
        else
          match dictGet costs (pyStrip i) with
          | some _ => notFoundOf costs rest
          | none => pyStrip i :: notFoundOf costs rest := by
  by_cases hs : pyStrip i = ""
  · simp [notFoundOf, procList_cons, hs]
  · cases hdg : dictGet costs (pyStrip i) <;>
      simp [notFoundOf, procList_cons, hs, List.filter_cons, hdg]

lemma subtotalLoop_spec (costs : List (String × ℚ)) (items : List String) :
    ∀ s f nf, subtotalLoop costs (s, f, nf) items
      = (s + sumFound costs items, f ++ foundOf costs items,
         nf ++ notFoundOf costs items) := by
  induction items with
  | nil =>
    intro s f nf
    simp [subtotalLoop, sumFound, foundOf, notFoundOf, procList]
  | cons i rest ih =>
    intro s f nf
    rw [subtotalLoop_cons, sumFound_cons, foundOf_cons, notFoundOf_cons]
    by_cases hs : pyStrip i = ""
    · simp [hs, ih]
    · rw [if_neg hs, if_neg hs, if_neg hs, if_neg hs]
      cases hdg : dictGet costs (pyStrip i) <;>
        simp [ih, add_assoc, List.append_assoc]

lemma calculate_subtotal_spec (items : List String) (costs : List (String × ℚ)) :
    calculate_subtotal items costs
      = (sumFound costs items, foundOf costs items, notFoundOf costs items) := by
  rw [calculate_subtotal, subtotalLoop_spec]
  simp

lemma sumFound_nonneg (costs : List (String × ℚ)) (items : List String)
    (hc : ∀ p ∈ costs, 0 ≤ p.2) : 0 ≤ sumFound costs items := by
  apply List.sum_nonneg
  intro x hx
  simp only [sumFound] at hx
  rw [List.mem_filterMap] at hx
  obtain ⟨a, _, hfa⟩ := hx
  rw [dictGet, Option.map_eq_some'] at hfa
  obtain ⟨p, hfind, hp2⟩ := hfa
  rw [← hp2]
  exact hc p (List.mem_of_find?_eq_some hfind)

/-- C1: on costs {apple: 1.50, banana: 0.75}, items [apple, banana] and
tax 0.1, `calculate_total` returns subtotal 2.25, tax_amount 0.23
(0.225 rounded half-up), total 2.48 (2.475 rounded half-up), items_found
[apple, banana], items_not_found [] and items_count 2. -/
theorem calculate_total_example_cart :
    calculate_total
      { costs := [("apple", 150/100), ("banana", 75/100)],
        items := ["apple", "banana"], tax := 1/10 } =
      { subtotal := 225/100, tax_amount := 23/100, total := 248/100,
        items_found := ["apple", "banana"], items_not_found := [],
        items_count := 2 } := by
  have e : calculate_total
      { costs := [("apple", 150/100), ("banana", 75/100)],
        items := ["apple", "banana"], tax := 1/10 } =
      { subtotal := round_to_decimal_places (0 + 150/100 + 75/100),
        tax_amount := round_to_decimal_places ((0 + 150/100 + 75/100) * (1/10)),
        total := round_to_decimal_places
          ((0 + 150/100 + 75/100) + (0 + 150/100 + 75/100) * (1/10)),
        items_found := ["apple", "banana"], items_not_found := [],
        items_count := 2 } := rfl
  rw [e,
    round_to_decimal_places_eval _ 225 (by norm_num) (by norm_num),
    round_to_decimal_places_eval _ 23 (by norm_num) (by norm_num),
    round_to_decimal_places_eval _ 248 (by norm_num) (by norm_num)]
  norm_num

/-- C2: `round_to_decimal_places` rounds to exactly 2 fractional digits
with half-up semantics on the exact decimal value of its input:
10.555 ↦ 10.56, 10.554 ↦ 10.55, 0.005 ↦ 0.01, 2.675 ↦ 2.68, and every
output is an integer number of hundredths. -/
theorem round_to_decimal_places_half_up :
    round_to_decimal_places (10555/1000) = 1056/100 ∧
    round_to_decimal_places (10554/1000) = 1055/100 ∧
    round_to_decimal_places (5/1000) = 1/100 ∧
    round_to_decimal_places (2675/1000) = 268/100 ∧
    ∀ q : ℚ, ∃ n : ℤ, round_to_decimal_places q = (n : ℚ) / 100 := by
  refine ⟨?_, ?_, ?_, ?_, fun q => ⟨roundHalfUp (q * 100), rfl⟩⟩
  · exact round_to_decimal_places_eval _ 1056 (by norm_num) (by norm_num)
  · exact round_to_decimal_places_eval _ 1055 (by norm_num) (by norm_num)
  · exact round_to_decimal_places_eval _ 1 (by norm_num) (by norm_num)
  · exact round_to_decimal_places_eval _ 268 (by norm_num) (by norm_num)

/-- Rounding each of `x`, `y` and `x + y` independently to 2 decimal
places half-up moves their sum by at most one cent. -/
lemma round2_add_drift (x y : ℚ) (hx : 0 ≤ x) (hy : 0 ≤ y) :
    |round_to_decimal_places (x + y)
      - (round_to_decimal_places x + round_to_decimal_places y)| ≤ 1/100 := by
  have hx' : 0 ≤ x * 100 := mul_nonneg hx (by norm_num)
  have hy' : 0 ≤ y * 100 := mul_nonneg hy (by norm_num)
  have hxy' : 0 ≤ (x + y) * 100 := mul_nonneg (add_nonneg hx hy) (by norm_num)
  rw [round_to_decimal_places, round_to_decimal_places, round_to_decimal_places,
    roundHalfUp, roundHalfUp, roundHalfUp, if_pos hxy', if_pos hx', if_pos hy']
  set A := ⌊x * 100 + 1/2⌋ with hA
  set B := ⌊y * 100 + 1/2⌋ with hB
  set C := ⌊(x + y) * 100 + 1/2⌋ with hC
  have hA1 : (A : ℚ) ≤ x * 100 + 1/2 := Int.floor_le _
  have hA2 : x * 100 + 1/2 < A + 1 := Int.lt_floor_add_one _
  have hB1 : (B : ℚ) ≤ y * 100 + 1/2 := Int.floor_le _
  have hB2 : y * 100 + 1/2 < B + 1 := Int.lt_floor_add_one _
  have hC1 : (C : ℚ) ≤ (x + y) * 100 + 1/2 := Int.floor_le _
  have hC2 : (x + y) * 100 + 1/2 < C + 1 := Int.lt_floor_add_one _
  have hexp : (x + y) * 100 = x * 100 + y * 100 := by ring
  rw [hexp] at hC1 hC2
  have h2 : ((C - A - B : ℤ) : ℚ) < 2 := by push_cast; linarith
  have h3 : (-2 : ℚ) < ((C - A - B : ℤ) : ℚ) := by push_cast; linarith
  have hd1 : C - A - B < 2 := by exact_mod_cast h2
  have hd2 : (-2 : ℤ) < C - A - B := by exact_mod_cast h3
  have habs : |((C - A - B : ℤ) : ℚ)| ≤ 1 := by
    rw [abs_le]
    constructor
    · exact_mod_cast (by omega : (-1 : ℤ) ≤ C - A - B)
    · exact_mod_cast (by omega : C - A - B ≤ 1)
  have he : (C : ℚ)/100 - ((A : ℚ)/100 + (B : ℚ)/100)
      = ((C - A - B : ℤ) : ℚ)/100 := by push_cast; ring
  rw [he, abs_div]
  rw [show |(100 : ℚ)| = 100 from abs_of_pos (by norm_num)]
  linarith

/-- C3: for every `calculate_total` call (non-negative costs, non-negative
tax rate), the pre-rounding identity total = subtotal + tax_amount holds
on the raw values, and the returned rounded total differs from the sum of
the returned rounded subtotal and rounded tax_amount by at most one cent. -/
theorem calculate_total_rounding_drift (r : ShoppingTotalRequest)
    (hc : ∀ p ∈ r.costs, 0 ≤ p.2) (ht : 0 ≤ r.tax) :
    (calculate_tax_and_total (calculate_subtotal r.items r.costs).1 r.tax).2
      = (calculate_subtotal r.items r.costs).1
        + (calculate_tax_and_total (calculate_subtotal r.items r.costs).1 r.tax).1
    ∧ |(calculate_total r).total
        - ((calculate_total r).subtotal + (calculate_total r).tax_amount)|
      ≤ 1/100 := by
  constructor
  · rfl
  · have hs : 0 ≤ (calculate_subtotal r.items r.costs).1 := by
      rw [calculate_subtotal_spec]
      exact sumFound_nonneg _ _ hc
    have e1 : (calculate_total r).total
        = round_to_decimal_places ((calculate_subtotal r.items r.costs).1
          + (calculate_subtotal r.items r.costs).1 * r.tax) := rfl
    have e2 : (calculate_total r).subtotal
        = round_to_decimal_places (calculate_subtotal r.items r.costs).1 := rfl
    have e3 : (calculate_total r).tax_amount
        = round_to_decimal_places ((calculate_subtotal r.items r.costs).1 * r.tax) := rfl
    rw [e1, e2, e3]
    exact round2_add_drift _ _ hs (mul_nonneg hs ht)

/-- Witness for C3 at costs {a: 1}, items [a], tax 1. -/
theorem calculate_total_rounding_drift_witness :
    (calculate_tax_and_total
        (calculate_subtotal (ShoppingTotalRequest.mk [("a", 1)] ["a"] 1).items
          (ShoppingTotalRequest.mk [("a", 1)] ["a"] 1).costs).1
        (ShoppingTotalRequest.mk [("a", 1)] ["a"] 1).tax).2
      = (calculate_subtotal (ShoppingTotalRequest.mk [("a", 1)] ["a"] 1).items
          (ShoppingTotalRequest.mk [("a", 1)] ["a"] 1).costs).1
        + (calculate_tax_and_total
            (calculate_subtotal (ShoppingTotalRequest.mk [("a", 1)] ["a"] 1).items
              (ShoppingTotalRequest.mk [("a", 1)] ["a"] 1).costs).1
            (ShoppingTotalRequest.mk [("a", 1)] ["a"] 1).tax).1
    ∧ |(calculate_total (ShoppingTotalRequest.mk [("a", 1)] ["a"] 1)).total
        - ((calculate_total (ShoppingTotalRequest.mk [("a", 1)] ["a"] 1)).subtotal
          + (calculate_total (ShoppingTotalRequest.mk [("a", 1)] ["a"] 1)).tax_amount)|
      ≤ 1/100 :=
  calculate_total_rounding_drift (ShoppingTotalRequest.mk [("a", 1)] ["a"] 1)
    (by simp) zero_le_one

/-- C4: `items_found` and `items_not_found` are the complementary ordered
sublists of the stripped non-blank input items (present in, respectively
absent from, the cost table); together as a multiset they equal the
stripped non-blank input items, and `items_count` is the sum of their
lengths, i.e. the number of non-blank items. -/
theorem calculate_total_item_partition (r : ShoppingTotalRequest) :
    (calculate_total r).items_found = foundOf r.costs r.items
    ∧ (calculate_total r).items_not_found = notFoundOf r.costs r.items
    ∧ (((calculate_total r).items_found ++ (calculate_total r).items_not_found
          : List String) : Multiset String)
        = ((procList r.items : List String) : Multiset String)
    ∧ (calculate_total r).items_count
        = (calculate_total r).items_found.length
          + (calculate_total r).items_not_found.length
    ∧ (calculate_total r).items_count = (procList r.items).length := by
  have hf : (calculate_total r).items_found = foundOf r.costs r.items := by
    show (calculate_subtotal r.items r.costs).2.1 = _
    rw [calculate_subtotal_spec]
  have hnf : (calculate_total r).items_not_found = notFoundOf r.costs r.items := by
    show (calculate_subtotal r.items r.costs).2.2 = _
    rw [calculate_subtotal_spec]
  have hperm : List.Perm
      (foundOf r.costs r.items ++ notFoundOf r.costs r.items)
      (procList r.items) := by
    exact List.filter_append_perm _ _
  refine ⟨hf, hnf, ?_, rfl, ?_⟩
  · rw [hf, hnf]
    exact Multiset.coe_eq_coe.mpr hperm
  · have : (calculate_total r).items_count
        = (calculate_total r).items_found.length
          + (calculate_total r).items_not_found.length := rfl
    rw [this, hf, hnf, ← List.length_append]
    exact hperm.length_eq

lemma extractLoop_cons (i : ℕ) (w : String) (rest : List String) :
    extractLoop i (w :: rest)
      = if is_valid_index w i then
          (w.data.getD i ' ' :: (extractLoop (i + 1) rest).1,
           (extractLoop (i + 1) rest).2)
        else ((extractLoop (i + 1) rest).1, (extractLoop (i + 1) rest).2 + 1) := rfl

lemma extractLoop_spec (ws : List String) : ∀ i : ℕ,
    (extractLoop i ws).1
        = (List.enumFrom i ws).filterMap (fun p => p.2.data[p.1]?)
    ∧ (extractLoop i ws).2
        = ((List.enumFrom i ws).filter
            (fun p => !(decide (p.1 < p.2.length)))).length
    ∧ (extractLoop i ws).1.length + (extractLoop i ws).2 = ws.length := by
  induction ws with
  | nil => intro i; simp [extractLoop]
  | cons w rest ih =>
    intro i
    obtain ⟨h1, h2, h3⟩ := ih (i + 1)
    rw [extractLoop_cons]
    by_cases h : i < w.length
    · have hb : is_valid_index w i = true := by simp [is_valid_index, h]
      have hg : w.data[i]? = some (w.data.getD i ' ') := by
        rw [List.getD_eq_getElem?_getD, List.getElem?_eq_getElem h]
        rfl
      rw [if_pos hb]
      refine ⟨?_, ?_, ?_⟩
      · simp only [List.enumFrom_cons, List.filterMap_cons, hg, h1]
      · simp [List.enumFrom_cons, List.filter_cons, h, h2]
      · simp only [List.length_cons]
        omega
    · have hb : is_valid_index w i = false := by simp [is_valid_index, h]
      have hg : w.data[i]? = none := by
        rw [List.getElem?_eq_none_iff]
        exact le_of_not_lt h
      rw [if_neg (by simp [hb])]
      refine ⟨?_, ?_, ?_⟩
      · simp only [List.enumFrom_cons, List.filterMap_cons, hg, h1]
      · simp [List.enumFrom_cons, List.filter_cons, h, h2]
      · simp only [List.length_cons]
        omega

lemma add_word_eq (st : Store) (word definition : String) :
    add_word st word definition
      = if pyStrip word = "" then .error .wordEmpty
        else if pyStrip definition = "" then .error .definitionEmpty
        else
          match find_by_word st (strToLower (pyStrip word)) with
          | some _ => .error (.alreadyExists (strToLower (pyStrip word)))
          | none =>
            .ok (⟨strToLower (pyStrip word), pyStrip definition⟩,
                 ⟨st.entries ++ [⟨strToLower (pyStrip word), pyStrip definition⟩]⟩) := rfl

lemma get_word_eq (st : Store) (word : String) :
    get_word st word
      = if pyStrip word = "" then .error .wordEmpty
        else
          match find_by_word st (strToLower (pyStrip word)) with
          | none => .error (.notFound (strToLower (pyStrip word)))
          | some entry => .ok entry := rfl

lemma find?_append_of_none {α : Type} (p : α → Bool) (l1 l2 : List α)
    (h : l1.find? p = none) : (l1 ++ l2).find? p = l2.find? p := by
  induction l1 with
  | nil => simp
  | cons a t ih =>
    rw [List.find?_cons] at h
    cases hpa : p a with
    | true => rw [hpa] at h; exact absurd h (by simp)
    | false =>
      rw [hpa] at h
      rw [List.cons_append, List.find?_cons, hpa]
      exact ih h

/-- C8: starting from a store without "python", add("Python", d)
succeeds with a stored entry whose word is "python" and whose definition
is the trimmed d; get("PYTHON") then returns that entry; a second add of
any casing of the same word fails with AlreadyExistsError; and get of any
word with no entry fails with NotFoundError. -/
theorem dictionary_round_trip (st : Store) (d : String)
    (hfree : find_by_word st "python" = none) (hd : pyStrip d ≠ "") :
    ∃ e st2, add_word st "Python" d = .ok (e, st2)
      ∧ e.word = "python" ∧ e.defn = pyStrip d
      ∧ get_word st2 "PYTHON" = .ok e
      ∧ (∀ w d2, pyStrip w ≠ "" → pyStrip d2 ≠ "" →
          strToLower (pyStrip w) = "python" →
          add_word st2 w d2 = .error (.alreadyExists "python"))
      ∧ (∀ (st3 : Store) (w : String), pyStrip w ≠ "" →
          find_by_word st3 (strToLower (pyStrip w)) = none →
          get_word st3 w = .error (.notFound (strToLower (pyStrip w)))) := by
  have hnorm : strToLower (pyStrip "Python") = "python" := by decide
  refine ⟨⟨"python", pyStrip d⟩, ⟨st.entries ++ [⟨"python", pyStrip d⟩]⟩,
    ?_, rfl, rfl, ?_, ?_, ?_⟩
  · rw [add_word_eq, if_neg (by decide), if_neg hd, hnorm, hfree]
  · have hfind : find_by_word ⟨st.entries ++ [⟨"python", pyStrip d⟩]⟩ "python"
        = some ⟨"python", pyStrip d⟩ := by
      simp only [find_by_word] at hfree ⊢
      rw [find?_append_of_none _ _ _ hfree]
      rfl
    rw [get_word_eq, if_neg (by decide),
      show strToLower (pyStrip "PYTHON") = "python" from by decide, hfind]
  · intro w d2 hw hd2 hlow
    have hfind : find_by_word ⟨st.entries ++ [⟨"python", pyStrip d⟩]⟩ "python"
        = some ⟨"python", pyStrip d⟩ := by
      simp only [find_by_word] at hfree ⊢
      rw [find?_append_of_none _ _ _ hfree]
      rfl
    rw [add_word_eq, if_neg hw, if_neg hd2, hlow, hfind]
  · intro st3 w hw hnone
    rw [get_word_eq, if_neg hw, hnone]

/-- Witness for C8: the empty store and the definition "a lang". -/
theorem dictionary_round_trip_witness :
    ∃ e st2, add_word (Store.mk []) "Python" "a lang" = .ok (e, st2)
      ∧ e.word = "python" ∧ e.defn = pyStrip "a lang"
      ∧ get_word st2 "PYTHON" = .ok e
      ∧ (∀ w d2, pyStrip w ≠ "" → pyStrip d2 ≠ "" →
          strToLower (pyStrip w) = "python" →
          add_word st2 w d2 = .error (.alreadyExists "python"))
      ∧ (∀ (st3 : Store) (w : String), pyStrip w ≠ "" →
          find_by_word st3 (strToLower (pyStrip w)) = none →
          get_word st3 w = .error (.notFound (strToLower (pyStrip w)))) :=
  dictionary_round_trip (Store.mk []) "a lang" rfl (by decide)

/-- C9: the character at position `i` of the word at index `i` is
extracted exactly when the word is longer than `i` (the list-indexed
lookup succeeds), otherwise the word is skipped; the result concatenates
the extracted characters in list order, extracted + skipped = word count,
and [hello, world, test] yields "hos" with 3 extracted and 0 skipped. -/
theorem concatenate_words_spec :
    (∀ words : List String,
      (concatenate_words words).result.data
          = words.enum.filterMap (fun p => p.2.data[p.1]?)
      ∧ (concatenate_words words).characters_extracted
          = (words.enum.filterMap (fun p => p.2.data[p.1]?)).length
      ∧ (concatenate_words words).characters_skipped
          = (words.enum.filter (fun p => !(decide (p.1 < p.2.length)))).length
      ∧ (concatenate_words words).characters_extracted
          + (concatenate_words words).characters_skipped = words.length)
    ∧ concatenate_words ["hello", "world", "test"]
        = { result := "hos", words := ["hello", "world", "test"],
            characters_extracted := 3, characters_skipped := 0 } := by
  constructor
  · intro words
    obtain ⟨h1, h2, h3⟩ := extractLoop_spec words 0
    have he : words.enum = List.enumFrom 0 words := rfl
    exact ⟨by rw [he]; exact h1, by rw [he, ← h1]; rfl,
      by rw [he]; exact h2, h3⟩
  · decide

lemma parse_items_eq_tokens (s : String) :
    parse_items s
      = if pyStrip s = "" then .error .emptyItems
        else if itemsTokens s = [] then .error .noItems
        else .ok (itemsTokens s) := by
  unfold parse_items itemsTokens
  by_cases ht : pyStrip s = ""
  · simp [ht]
  · by_cases h1 : ',' ∈ (pyStrip s).data
    · simp [ht, h1, List.filter_filter]
    · by_cases h2 : '\n' ∈ (pyStrip s).data
      · simp [ht, h1, h2, List.filter_filter]
      · by_cases h3 : ' ' ∈ (pyStrip s).data ∧ 1 < (wsSplit (pyStrip s).data).length
        · simp [ht, h1, h2, h3, List.filter_filter]
        · simp [ht, h1, h2, h3]

/-- C7 counterexample: "a\tb" contains whitespace and whitespace-splits
into two tokens, yet the parser returns the single item "a\tb": the code
checks for a space character, not arbitrary whitespace. -/
theorem parse_items_tab_counterexample :
    parse_items "a\tb" = .ok ["a\tb"]
    ∧ (pyStrip "a\tb").data.any isPySpace = true
    ∧ wsSplit (pyStrip "a\tb").data = [['a'], ['b']]
    ∧ (["a\tb"] : List String) ≠ ["a", "b"] := by
  refine ⟨rfl, by decide, rfl, by decide⟩

/-- C7 amended: delimiter precedence with the third rule reading
"contains a space character and the whitespace split has more than one
token"; tokens are trimmed, blanks dropped, and the parser fails exactly
when the resulting token sequence is empty. -/
theorem parse_items_delimiters (s : String) :
    (∀ l, parse_items s = .ok l ↔ (itemsTokens s = l ∧ l ≠ []))
    ∧ ((∃ e, parse_items s = .error e) ↔ itemsTokens s = []) := by
  rw [parse_items_eq_tokens]
  by_cases ht : pyStrip s = ""
  · have htok : itemsTokens s = [] := by
      simp [itemsTokens, ht, show ("" : String).data = [] from rfl]
    simp [ht, htok]
  · by_cases htok : itemsTokens s = []
    · simp [ht, htok]
    · simp [ht, htok, eq_comm]

lemma jsonValidate_all_ok (kvs : List (String × JVal))
    (h : ∀ kv ∈ kvs, kv.2.isNumber = true ∧ kv.2.toFloat.ltZero = false) :
    jsonValidate kvs = .ok (kvs.map (fun kv => (kv.1, kv.2.toFloat))) := by
  induction kvs with
  | nil => rfl
  | cons kv rest ih =>
    obtain ⟨hn, hz⟩ := h kv (by simp)
    simp [jsonValidate, hn, hz, ih (fun x hx => h x (by simp [hx])), Except.map]

lemma jsonValidate_first_bad (pre : List (String × JVal)) (k : String)
    (v : JVal) (post : List (String × JVal))
    (hpre : ∀ kv ∈ pre, kv.2.isNumber = true ∧ kv.2.toFloat.ltZero = false)
    (hbad : v.isNumber = false ∨ v.toFloat.ltZero = true) :
    jsonValidate (pre ++ (k, v) :: post)
      = .error (if v.isNumber then .costNegative k else .costNotNumber k) := by
  induction pre with
  | nil =>
    rcases hbad with h | h
    · simp [jsonValidate, h]
    · by_cases hn : v.isNumber <;> simp [jsonValidate, hn, h]
  | cons kv rest ih =>
    obtain ⟨hn, hz⟩ := hpre kv (by simp)
    simp [jsonValidate, hn, hz, ih (fun x hx => hpre x (by simp [hx])), Except.map]

lemma pyStrip_data_ne_empty {s : String}
    (hb : (pyStrip s).data.head? = some '\x7b') : pyStrip s ≠ "" := by
  intro h
  rw [h] at hb
  exact absurd hb (by decide)

lemma parse_costs_json (jdec : String → Option (List (String × JVal)))
    (s : String) (kvs : List (String × JVal))
    (hb : (pyStrip s).data.head? = some '\x7b')
    (hj : jdec (pyStrip s) = some kvs) :
    parse_costs jdec s = jsonValidate kvs := by
  unfold parse_costs
  rw [if_neg (pyStrip_data_ne_empty hb), if_pos hb, hj]

/-- C5: when the stripped cost input starts with a brace and the JSON
decoder returns an object, the parser returns that mapping (values taken
through `float`) when every value passes the numeric and non-negative
checks, and otherwise fails with the error naming the first offending
key — an error, never a fallthrough to the delimited format. -/
theorem parse_costs_json_object (jdec : String → Option (List (String × JVal)))
    (s : String) (kvs : List (String × JVal))
    (hb : (pyStrip s).data.head? = some '\x7b')
    (hj : jdec (pyStrip s) = some kvs) :
    ((∀ kv ∈ kvs, kv.2.isNumber = true ∧ kv.2.toFloat.ltZero = false) →
        parse_costs jdec s = .ok (kvs.map (fun kv => (kv.1, kv.2.toFloat))))
    ∧ (∀ pre k v post, kvs = pre ++ (k, v) :: post →
        (∀ kv ∈ pre, kv.2.isNumber = true ∧ kv.2.toFloat.ltZero = false) →
        (v.isNumber = false ∨ v.toFloat.ltZero = true) →
        parse_costs jdec s
          = .error (if v.isNumber then .costNegative k else .costNotNumber k)) := by
  constructor
  · intro h
    rw [parse_costs_json jdec s kvs hb hj]
    exact jsonValidate_all_ok kvs h
  · intro pre k v post hsplit hpre hbad
    rw [parse_costs_json jdec s kvs hb hj, hsplit]
    exact jsonValidate_first_bad pre k v post hpre hbad

/-- Witness for C5: the input is a JSON object with the negative value
{"a": -1}; the parser fails naming the key "a". -/
theorem parse_costs_json_object_witness :
    parse_costs
      (fun t => if t = "\x7b\"a\": -1\x7d"
        then some [("a", JVal.num (PyFloat.finite (-1)))] else none)
      "\x7b\"a\": -1\x7d"
      = .error (.costNegative "a") :=
  (parse_costs_json_object
      (fun t => if t = "\x7b\"a\": -1\x7d"
        then some [("a", JVal.num (PyFloat.finite (-1)))] else none)
      "\x7b\"a\": -1\x7d" [("a", JVal.num (PyFloat.finite (-1)))]
      rfl rfl).2
    [] "a" (JVal.num (PyFloat.finite (-1))) [] rfl (by simp)
    (Or.inr (by decide))

/-- C10: when the stripped cost input starts with a brace but the JSON
decoder fails, the parser does not fail at the JSON step: it runs the
delimited key:value parsing on the same (stripped) text. -/
theorem parse_costs_fallthrough (jdec : String → Option (List (String × JVal)))
    (s : String) (hb : (pyStrip s).data.head? = some '\x7b')
    (hj : jdec (pyStrip s) = none) :
    parse_costs jdec s = parseDelimited (pyStrip s).data := by
  unfold parse_costs
  rw [if_neg (pyStrip_data_ne_empty hb), if_pos hb, hj]

/-- Witness for C10: "\x7ba: inf" is not valid JSON (decoder says none)
yet parses successfully under the delimited rules, the brace becoming
part of the item name. -/
theorem parse_costs_fallthrough_witness :
    parse_costs (fun _ => none) "\x7ba: inf"
        = parseDelimited (pyStrip "\x7ba: inf").data
    ∧ parseDelimited (pyStrip "\x7ba: inf").data
        = .ok [("\x7ba", PyFloat.inf)] :=
  ⟨parse_costs_fallthrough (fun _ => none) "\x7ba: inf" rfl rfl, rfl⟩

lemma findSplit_sound : ∀ (cs p q : List Char), findSplit cs = some (p, q) →
    cs = p ++ ':' :: q ∧ q ≠ [] := by
  intro cs
  induction cs with
  | nil => intro p q h; exact absurd h (by simp [findSplit])
  | cons c rest ih =>
    intro p q h
    simp only [findSplit] at h
    by_cases hc : (c == ':' && !rest.isEmpty) = true
    · rw [if_pos hc] at h
      rw [Bool.and_eq_true] at hc
      obtain ⟨hc1, hc2⟩ := hc
      have hc1' : c = ':' := by exact_mod_cast beq_iff_eq.mp hc1
      have hc2' : rest ≠ [] := by
        intro h0
        rw [h0] at hc2
        exact absurd hc2 (by decide)
      simp only [Option.some.injEq, Prod.mk.injEq] at h
      obtain ⟨hp, hq⟩ := h
      subst hp; subst hq; subst hc1'
      exact ⟨rfl, hc2'⟩
    · rw [if_neg hc, Option.map_eq_some'] at h
      obtain ⟨⟨p2, q2⟩, hf, heq⟩ := h
      obtain ⟨h1, h2⟩ := ih p2 q2 hf
      simp only [Prod.mk.injEq] at heq
      obtain ⟨hp, hq⟩ := heq
      subst hp; subst hq
      exact ⟨by rw [h1]; rfl, h2⟩

lemma colonSplit_sound (cs p q : List Char) (h : colonSplit cs = some (p, q)) :
    cs = p ++ ':' :: q ∧ p ≠ [] ∧ q ≠ [] := by
  cases cs with
  | nil => exact absurd h (by simp [colonSplit])
  | cons c rest =>
    simp only [colonSplit, Option.map_eq_some'] at h
    obtain ⟨⟨p2, q2⟩, hf, heq⟩ := h
    obtain ⟨h1, h2⟩ := findSplit_sound rest p2 q2 hf
    simp only [Prod.mk.injEq] at heq
    obtain ⟨hp, hq⟩ := heq
    subst hp; subst hq
    exact ⟨by rw [h1]; rfl, by simp, h2⟩

lemma processLine_eq (acc : List (String × PyFloat)) (l : List Char) :
    processLine acc l
      = if pyStripList l = [] then .ok acc
        else
          match colonSplit (pyStripList l) with
          | none => .ok acc
          | some (namePart, pricePart) =>
            if (⟨pyStripList namePart⟩ : String) = "" then .ok acc
            else
              match pyFloatOfString ⟨pyStripList pricePart⟩ with
              | none => .error (.invalidPrice ⟨pyStripList namePart⟩
                  ⟨pyStripList pricePart⟩)
              | some price =>
                if price.ltZero then .error (.costNegative ⟨pyStripList namePart⟩)
                else .ok (insertLW acc ⟨pyStripList namePart⟩ price) := rfl

lemma colonSplit_ne_nil {cs p q : List Char} (h : colonSplit cs = some (p, q)) :
    cs ≠ [] := by
  intro h0
  rw [h0] at h
  exact absurd h (by simp [colonSplit])

lemma processLine_some (acc : List (String × PyFloat)) (l pre post : List Char)
    (hcs : colonSplit (pyStripList l) = some (pre, post)) :
    processLine acc l
      = if (⟨pyStripList pre⟩ : String) = "" then .ok acc
        else
          match pyFloatOfString ⟨pyStripList post⟩ with
          | none => .error (.invalidPrice ⟨pyStripList pre⟩ ⟨pyStripList post⟩)
          | some price =>
            if price.ltZero then .error (.costNegative ⟨pyStripList pre⟩)
            else .ok (insertLW acc ⟨pyStripList pre⟩ price) := by
  rw [processLine_eq, if_neg (colonSplit_ne_nil hcs), hcs]

lemma insertLW_lookup_self : ∀ (acc : List (String × PyFloat)) (k : String)
    (v : PyFloat), lookupLW (insertLW acc k v) k = some v := by
  intro acc k v
  induction acc with
  | nil => simp [insertLW, lookupLW, List.find?]
  | cons p rest ih =>
    obtain ⟨k2, v2⟩ := p
    by_cases hk : k2 = k
    · subst hk
      simp [insertLW, lookupLW, List.find?]
    · simpa [insertLW, hk, lookupLW, List.find?] using ih

lemma insertLW_lookup_other : ∀ (acc : List (String × PyFloat)) (k : String)
    (v : PyFloat) (k2 : String), k2 ≠ k →
    lookupLW (insertLW acc k v) k2 = lookupLW acc k2 := by
  intro acc k v k2 h
  induction acc with
  | nil =>
    have hbeq : (k == k2) = false := beq_eq_false_iff_ne.mpr (Ne.symm h)
    simp [insertLW, lookupLW, List.find?, hbeq]
  | cons p rest ih =>
    obtain ⟨k3, v3⟩ := p
    by_cases hk3 : k3 = k
    · have hbeq : (k3 == k2) = false :=
        beq_eq_false_iff_ne.mpr (by rw [hk3]; exact Ne.symm h)
      have hbeq2 : (k == k2) = false := beq_eq_false_iff_ne.mpr (Ne.symm h)
      simp [insertLW, hk3, lookupLW, List.find?, hbeq, hbeq2]
    · by_cases hk32 : k3 = k2
      · have hbeq : (k3 == k2) = true := beq_iff_eq.mpr hk32
        simp [insertLW, hk3, lookupLW, List.find?, hbeq]
      · have hbeq : (k3 == k2) = false := beq_eq_false_iff_ne.mpr hk32
        simpa [insertLW, hk3, lookupLW, List.find?, hbeq] using ih

/-- C6 counterexample: in "a: inf, b:" the line "a: inf" has the
non-finite parsable price inf and the line "b:" contains a colon with no
price text; the claim demands a ParseError for both, but the parser
succeeds, storing infinity for "a" and silently skipping "b:". -/
theorem parse_costs_nonfinite_counterexample :
    parse_costs (fun _ => none) "a: inf, b:" = .ok [("a", PyFloat.inf)]
    ∧ pyFloatOfString "inf" = some PyFloat.inf
    ∧ (∀ q : ℚ, PyFloat.inf ≠ PyFloat.finite q)
    ∧ ':' ∈ ("b:").data :=
  ⟨rfl, rfl, fun _ h => PyFloat.noConfusion h, by decide⟩

/-- C6 amended: a stripped line splits at the leftmost colon having at
least one character before it and at least one after; lines admitting no
such split are silently skipped; an unparsable price fails with
ParseError, a parsed negative price (including -inf) fails with
ParseError, and a parsed non-negative price (including inf and nan) is
stored with last-write-wins on duplicate names; if no valid pair was
found the parser fails with ParseError. -/
theorem parse_costs_delimited_amended :
    (∀ cs pre post, colonSplit cs = some (pre, post) →
        cs = pre ++ ':' :: post ∧ pre ≠ [] ∧ post ≠ [])
    ∧ (∀ acc l,
        (¬ ∃ pre post, pyStripList l = pre ++ ':' :: post ∧ pre ≠ [] ∧ post ≠ []) →
        processLine acc l = .ok acc)
    ∧ (∀ acc l pre post, colonSplit (pyStripList l) = some (pre, post) →
        (⟨pyStripList pre⟩ : String) ≠ "" →
        pyFloatOfString ⟨pyStripList post⟩ = none →
        processLine acc l
          = .error (.invalidPrice ⟨pyStripList pre⟩ ⟨pyStripList post⟩))
    ∧ (∀ acc l pre post v, colonSplit (pyStripList l) = some (pre, post) →
        (⟨pyStripList pre⟩ : String) ≠ "" →
        pyFloatOfString ⟨pyStripList post⟩ = some v → v.ltZero = true →
        processLine acc l = .error (.costNegative ⟨pyStripList pre⟩))
    ∧ (∀ acc l pre post v, colonSplit (pyStripList l) = some (pre, post) →
        (⟨pyStripList pre⟩ : String) ≠ "" →
        pyFloatOfString ⟨pyStripList post⟩ = some v → v.ltZero = false →
        processLine acc l = .ok (insertLW acc ⟨pyStripList pre⟩ v))
    ∧ (∀ acc k v, lookupLW (insertLW acc k v) k = some v)
    ∧ (∀ acc k v k2, k2 ≠ k → lookupLW (insertLW acc k v) k2 = lookupLW acc k2)
    ∧ (∀ cs, processLines [] (splitDelims cs) = .ok [] →
        parseDelimited cs = .error .noPairs)
    ∧ PyFloat.neginf.ltZero = true
    ∧ pyFloatOfString "-inf" = some PyFloat.neginf := by
  refine ⟨colonSplit_sound, ?_, ?_, ?_, ?_, insertLW_lookup_self,
    insertLW_lookup_other, ?_, rfl, rfl⟩
  · intro acc l h
    by_cases hnil : pyStripList l = []
    · rw [processLine_eq, if_pos hnil]
    · rw [processLine_eq, if_neg hnil]
      cases hcs : colonSplit (pyStripList l) with
      | none => rfl
      | some pq =>
        exfalso
        obtain ⟨h1, h2, h3⟩ := colonSplit_sound _ pq.1 pq.2 (by rw [hcs])
        exact h ⟨pq.1, pq.2, h1, h2, h3⟩
  · intro acc l pre post hcs hitem hprice
    rw [processLine_some acc l pre post hcs, if_neg hitem, hprice]
  · intro acc l pre post v hcs hitem hprice hlt
    rw [processLine_some acc l pre post hcs, if_neg hitem, hprice]
    simp [hlt]
  · intro acc l pre post v hcs hitem hprice hlt
    rw [processLine_some acc l pre post hcs, if_neg hitem, hprice]
    simp [hlt]
  · intro cs h
    unfold parseDelimited
    rw [h]
    rfl

/-- Witness for the amended C6: the line "a: inf" stores inf for "a". -/
theorem parse_costs_delimited_amended_witness :
    processLine [] ("a: inf").data
      = .ok (insertLW [] "a" PyFloat.inf) :=
  parse_costs_delimited_amended.2.2.2.2.1 [] ("a: inf").data
    ['a'] (' ' :: ("inf").data) PyFloat.inf rfl (by decide) rfl rfl

end Devtools
